import Mathlib

/-!
Verification of the Conversational Context and Caching Engine of the
Warmth backend.  The definitions below are shallow embeddings of the
functions in `backend/app/services/cache_service.py` and
`backend/app/services/chat_service.py`; machine floats of the source are
embedded as rationals, wall-clock time as a rational (cache layer) or a
natural number of seconds (scheduler), and calls into external
collaborators (Redis, the LLM endpoint, the sentiment analyzer) as
explicitly passed oracle values.
-/

/-! ## Two-tier TTL cache (`cache_service.py`, class `CacheManager`)

The local in-process store `in_memory_cache` is a string-keyed map whose
entries carry an absolute expiry time; we embed it as an association
list with unique keys.  The namespace argument is called `ns` here
(the source calls it `prefix`).
-/

structure LocalEntry (V : Type) where
  value : V
  expiresAt : ℚ
deriving DecidableEq

/-- The in-process fallback store `self.in_memory_cache`. -/
abbrev LocalCache (V : Type) := List (String × LocalEntry V)

/-- Embeds `CacheManager._get_cache_key`. -/
def cacheKeyOf (ns key : String) : String := "warmth:" ++ ns ++ ":" ++ key

/-- The in-memory branch of `CacheManager.get` (lines 119-136): a hit iff
the entry exists and `expires_at > time.time()`; an expired entry is
deleted on read (lazy purge) and reported as a miss. -/
def localGet {V : Type} (st : LocalCache V) (now : ℚ) (ck : String) :
    Option V × LocalCache V :=
  match st.find? (fun p => p.1 == ck) with
  | some pe =>
    if now < pe.2.expiresAt then (some pe.2.value, st)
    else (none, st.filter (fun p => p.1 != ck))
  | none => (none, st)

/-- The in-memory branch of `CacheManager.set` (lines 168-178): stores the
raw value with `expires_at = time.time() + ttl`, replacing any previous
entry under the same key (dict assignment). -/
def localSet {V : Type} (st : LocalCache V) (now : ℚ) (ck : String) (v : V)
    (ttl : ℚ) : LocalCache V :=
  (ck, ⟨v, now + ttl⟩) :: st.filter (fun p => p.1 != ck)

/-- Outcome of one call into the Redis collaborator: it either returns a
value or raises. -/
inductive RResult (α : Type) where
  | ok : α → RResult α
  | exn : RResult α
deriving DecidableEq

/-- The distributed backend as consumed by the cache layer: `ping`,
`get`, `setex`, each of which may raise.  JSON (de)serialization on the
Redis path is folded into the oracle: `getOp` returning `ok (some v)`
means the network read and `json.loads` both succeeded. -/
structure RedisClient (V : Type) where
  ping : RResult Unit
  getOp : String → RResult (Option V)
  setexOp : String → ℚ → V → RResult Unit

/-- Embeds `CacheManager.is_redis_available`: `False` when no client is
configured, otherwise the result of a guarded `ping`. -/
def isRedisAvailable {V : Type} (client : Option (RedisClient V)) : Bool :=
  match client with
  | none => false
  | some r => match r.ping with | .ok _ => true | .exn => false

/-- Embeds `CacheManager.get` (lines 90-136).  When Redis is available a
hit returns immediately and a genuine Redis miss returns `none` without
consulting the local store; only a raised exception (or an unavailable
backend) falls through to the in-memory store. -/
def cmGet {V : Type} (client : Option (RedisClient V)) (st : LocalCache V)
    (now : ℚ) (ns key : String) : Option V × LocalCache V :=
  let ck := cacheKeyOf ns key
  match client with
  | some r =>
    match r.ping with
    | .ok _ =>
      match r.getOp ck with
      | .ok (some v) => (some v, st)
      | .ok none => (none, st)
      | .exn => localGet st now ck
    | .exn => localGet st now ck
  | none => localGet st now ck

/-- Embeds `CacheManager.set` (lines 138-178).  `serOk` is the outcome of
`json.dumps`: on serialization failure the call returns `False` without
touching either store.  A reachable Redis receives the write and the
local store is left alone; on a raised `setex` (or unavailable backend)
the write lands in the local store.  The in-memory assignment itself
cannot fail, so those paths return `True`. -/
def cmSet {V : Type} (client : Option (RedisClient V)) (serOk : V → Bool)
    (st : LocalCache V) (now : ℚ) (ns key : String) (v : V) (ttl : ℚ) :
    Bool × LocalCache V :=
  let ck := cacheKeyOf ns key
  if serOk v then
    match client with
    | some r =>
      match r.ping with
      | .ok _ =>
        match r.setexOp ck ttl v with
        | .ok _ => (true, st)
        | .exn => (true, localSet st now ck v ttl)
      | .exn => (true, localSet st now ck v ttl)
    | none => (true, localSet st now ck v ttl)
  else (false, st)

/-- A distributed backend on which every call raises (connection down). -/
def raisingClient (V : Type) : RedisClient V :=
  ⟨.exn, fun _ => .exn, fun _ _ _ => .exn⟩

/-! ## Token-budgeted history window (`chat_service.py`,
`_prune_history_by_tokens`, lines 878-893) -/

structure Msg where
  role : String
  content : String
deriving DecidableEq

/-- Per-turn approximate cost: `len(message['content']) // 4 + 2`. -/
def msgTokens (m : Msg) : ℕ := m.content.length / 4 + 2

/-- The accumulation loop of `_prune_history_by_tokens`: walks the
already-reversed history, keeps a turn while `total + cost <= max`, and
breaks at the first turn that would overflow. -/
def pruneAux (maxTok : ℕ) : List Msg → ℕ → List Msg
  | [], _ => []
  | m :: rest, total =>
    if total + msgTokens m ≤ maxTok then m :: pruneAux maxTok rest (total + msgTokens m)
    else []

/-- Embeds `_prune_history_by_tokens`: iterate over `reversed(history)`,
then return the kept turns in chronological order. -/
def pruneHistoryByTokens (history : List Msg) (maxTokens : ℕ) : List Msg :=
  (pruneAux maxTokens history.reverse 0).reverse

/-- Cumulative approximate cost of a window. -/
def totalTokens (l : List Msg) : ℕ := (l.map msgTokens).sum

/-! ## Mood labelling (`_auto_analyze_and_log_mood`, lines 744-754) -/

/-- The label ladder, in source order: `>= 0.5` Great, `>= 0.05` Good,
`<= -0.5` Heavy, `<= -0.05` Low, else Neutral. -/
def moodLabel (score : ℚ) : String :=
  if score ≥ 1/2 then "Great"
  else if score ≥ 1/20 then "Good"
  else if score ≤ -(1/2) then "Heavy"
  else if score ≤ -(1/20) then "Low"
  else "Neutral"

/-! ## Keyword-relevance retrieval (`_get_memories_for_context`,
lines 972-1034) -/

/-- A memory row as seen by the retrieval loop (already filtered to the
current user by `_get_all_memories`). -/
structure MemRow where
  key : String
  value : String
  importance : ℚ
deriving DecidableEq

/-- Lowercased whitespace tokenization: Python `text.lower().split()`
(splits on whitespace runs and drops empty pieces). -/
def tokenWords (s : String) : List String :=
  (s.toLower.split Char.isWhitespace).filter (fun w => w ≠ "")

/-- The word set `set(text.lower().split())` as a duplicate-free list. -/
def wordSet (s : String) : List String := (tokenWords s).dedup

/-- Size of the intersection of two word sets (`len(a & b)` for the
duplicate-free lists produced by `wordSet`). -/
def interCount (qs ms : List String) : ℕ := (qs.filter (fun w => w ∈ ms)).length

/-- Relevance of one memory (lines 994-1008): overlap ratio
`len(inter) / max(len(user_words), len(memory_words))` when the
intersection is non-empty (0 otherwise), then multiplied by 1.2 when the
importance exceeds 0.7. -/
def relevanceOf (query : String) (m : MemRow) : ℚ :=
  let uw := wordSet query
  let mw := wordSet (m.key ++ " " ++ m.value)
  let base : ℚ :=
    if interCount uw mw ≠ 0 then (interCount uw mw : ℚ) / (max uw.length mw.length : ℕ)
    else 0
  if m.importance > 7/10 then base * (6/5) else base

/-- Comparison used for the descending stable sort
(`sort(key=relevance, reverse=True)` with a stable sort). -/
def memLE (a b : MemRow × ℚ) : Bool := decide (b.2 ≤ a.2)

/-- The memories surviving the relevance filter (lines 1010-1015), paired
with their scores, in storage order. -/
def relevantMemories (query : String) (mems : List MemRow) : List (MemRow × ℚ) :=
  (mems.map (fun m => (m, relevanceOf query m))).filter (fun p => p.2 > 1/10)

/-- Lines 1017-1019: stable descending sort, then take the top `k`
(`k = 5` at the call site). -/
def selectedMemories (query : String) (mems : List MemRow) (k : ℕ) :
    List (MemRow × ℚ) :=
  ((relevantMemories query mems).mergeSort memLE).take k

/-- Formatting of a selection (`", ".join(f"{key}: {value}")`). -/
def formatMemories (l : List (MemRow × ℚ)) : String :=
  String.intercalate ", " (l.map (fun p => p.1.key ++ ": " ++ p.1.value))

/-- The uncached body of `_get_memories_for_context`: the sentinel for a
user with no stored facts, otherwise the formatted top five. -/
def getMemoriesForContext (query : String) (mems : List MemRow) : String :=
  if mems.isEmpty then "No memories about user yet."
  else
    let top := selectedMemories query mems 5
    if top.isEmpty then "No directly relevant memories."
    else formatMemories top

/-! ## Duplicate detection (`_enhanced_auto_memory_extraction`,
lines 700-712) -/

/-- Python substring test `needle in hay` on character lists. -/
def strContains (hay needle : List Char) : Bool :=
  hay.tails.any (fun t => needle.isPrefixOf t)

/-- Python `s.lower()` as a character list (per-character lowering, the
definition of `str.lower` for the ASCII data at hand). -/
def lowerChars (s : String) : List Char := s.data.map Char.toLower

/-- The duplicate check of lines 703-707: a candidate is a duplicate when
some existing fact contains the candidate key (case-insensitively) in
its key and the candidate value in its value. -/
def isDuplicateCandidate (key value : String) (mems : List MemRow) : Bool :=
  mems.any (fun mem =>
    strContains (lowerChars mem.key) (lowerChars key) &&
    strContains (lowerChars mem.value) (lowerChars value))

/-- Line 709: the candidate is persisted iff it is not flagged as a
duplicate. -/
def enhancedExtractionPersists (key value : String) (mems : List MemRow) : Bool :=
  !(isDuplicateCandidate key value mems)

/-! ## Idle-debounce scheduler (`_schedule_memory_extraction`,
`_check_conversation_activity`, `_delayed_extraction`, lines 561-598)

Each message spawns a fresh daemon thread that sleeps for the idle
window, re-checks inactivity against `last_user_message_time`, and then
runs the extraction body.  The `with threading.Lock():` at line 581
acquires a lock created on the spot, which no other thread can hold, so
entry into the body never blocks; it is embedded as an unconditional
transition.  Time advances in whole seconds. -/

inductive Phase where
  | sleeping
  | inBody
  | finished
deriving DecidableEq

/-- One background timer thread spawned by `_schedule_memory_extraction`. -/
structure TimerThread where
  user : String
  armedAt : ℕ
  phase : Phase
deriving DecidableEq

structure SchedState where
  now : ℕ
  lastMsg : List (String × ℕ)
  threads : List TimerThread
deriving DecidableEq

/-- The idle window: `time.sleep(600)` and `timedelta(minutes=10)`. -/
def idleWindow : ℕ := 600

def lookupTime (l : List (String × ℕ)) (u : String) : Option ℕ :=
  (l.find? (fun p => p.1 == u)).map (fun p => p.2)

def setTime (l : List (String × ℕ)) (u : String) (t : ℕ) : List (String × ℕ) :=
  (u, t) :: l.filter (fun p => p.1 != u)

inductive SchedEvent where
  | activity (u : String)
  | advance (d : ℕ)
  | wake (i : ℕ)
  | finish (i : ℕ)

/-- One step of the scheduler.  `activity u` embeds
`_check_conversation_activity` (record the message time, then
`_schedule_memory_extraction` starts a new thread; the enabled flag is
`True` and no existing thread is cancelled).  `wake i` embeds thread `i`
returning from `time.sleep(600)` at the current instant and running the
inactivity re-check of `_delayed_extraction`; on success it enters the
extraction body (the freshly created lock never blocks), otherwise it
exits.  `finish i` is the body of thread `i` completing.  `none` marks an
event that is not enabled in the given state. -/
def schedStep (st : SchedState) (e : SchedEvent) : Option SchedState :=
  match e with
  | .activity u =>
    some { st with lastMsg := setTime st.lastMsg u st.now,
                   threads := st.threads ++ [⟨u, st.now, .sleeping⟩] }
  | .advance d => some { st with now := st.now + d }
  | .wake i =>
    match st.threads[i]? with
    | some th =>
      if th.phase = .sleeping ∧ th.armedAt + idleWindow ≤ st.now then
        match lookupTime st.lastMsg th.user with
        | some tm =>
          if idleWindow ≤ st.now - tm then
            some { st with threads := st.threads.set i { th with phase := .inBody } }
          else
            some { st with threads := st.threads.set i { th with phase := .finished } }
        | none =>
          some { st with threads := st.threads.set i { th with phase := .finished } }
      else none
    | none => none
  | .finish i =>
    match st.threads[i]? with
    | some th =>
      if th.phase = .inBody then
        some { st with threads := st.threads.set i { th with phase := .finished } }
      else none
    | none => none

def schedInit : SchedState := ⟨0, [], []⟩

def schedRun (st : SchedState) : List SchedEvent → Option SchedState
  | [] => some st
  | e :: es =>
    match schedStep st e with
    | some st2 => schedRun st2 es
    | none => none

/-- Live timers of a user: armed threads that have neither fired nor been
cancelled (the source has no cancellation path at all). -/
def liveTimerCount (st : SchedState) (u : String) : ℕ :=
  (st.threads.filter (fun th => th.user == u && th.phase == Phase.sleeping)).length

/-- Threads of a user currently inside the extraction/journaling body. -/
def inBodyCount (st : SchedState) (u : String) : ℕ :=
  (st.threads.filter (fun th => th.user == u && th.phase == Phase.inBody)).length

/-! ## Service state around the caches (`chat_service.py`)

A minimal state for the write/read paths the cache-invalidation claims
are about: the persisted mood log and memory tables (newest-first lists,
matching the descending-timestamp reads) plus the two cache namespaces,
each run against the in-process store (`client = none`).  The source
keeps both namespaces in one dict keyed by `warmth:{ns}:{key}`; since the
namespace is part of every key the split into two typed stores is
faithful. -/

structure MoodRow where
  user : String
  score : ℚ
  label : String
  topic : String
deriving DecidableEq

structure StoredMemory where
  user : String
  key : String
  value : String
  importance : ℚ
deriving DecidableEq

structure ServiceState where
  moodLogs : List MoodRow
  memories : List StoredMemory
  moodCache : LocalCache String
  searchCache : LocalCache (List (MemRow × ℚ))
deriving DecidableEq

/-- Embeds `_auto_analyze_and_log_mood` (lines 726-775) given the
sentiment result `{score, topics}` of the analyzer collaborator: label
the score, insert a `mood_logs` row, and return the logged data.  The
cache is not touched on this path. -/
def autoAnalyzeAndLogMood (st : ServiceState) (uid : String) (score : ℚ)
    (topics : List String) : ServiceState × MoodRow :=
  let topic := topics.head?.getD "General"
  let row : MoodRow := ⟨uid, score, moodLabel score, topic⟩
  ({ st with moodLogs := row :: st.moodLogs }, row)

/-- Embeds `_save_memory_tool` / `_get_or_create_memory` (lines 67-95,
202-221): update the value and importance of an existing `(user, key)`
row, or insert a new row with importance 0.8.  The embedding side table
is external; the cache is not touched on this path. -/
def saveMemoryTool (st : ServiceState) (uid key value : String) : ServiceState :=
  if st.memories.any (fun m => m.user == uid && m.key == key) then
    { st with memories := st.memories.map (fun m =>
        if m.user == uid && m.key == key then
          { m with value := value, importance := 4/5 }
        else m) }
  else
    { st with memories := st.memories ++ [⟨uid, key, value, 4/5⟩] }

/-- Embeds `_get_recent_mood_scores`: scores of the newest `limit` rows
of the user. -/
def recentMoodScores (st : ServiceState) (uid : String) (limit : ℕ) : List ℚ :=
  ((st.moodLogs.filter (fun r => r.user == uid)).take limit).map (fun r => r.score)

/-- The trend text computed by `_get_mood_context` on a cache miss
(lines 904-932): sign of the newest score against 0.3, with an
improving/declining qualifier when the newest two scores differ by more
than 0.2. -/
def computeMoodContext (scores : List ℚ) : String :=
  match scores with
  | [] => "Unknown mood (no data)"
  | [s] =>
    if s > 3/10 then "Positive mood"
    else if s < -(3/10) then "Negative mood"
    else "Neutral mood"
  | current :: previous :: _ =>
    let base :=
      if current > 3/10 then "Positive mood"
      else if current < -(3/10) then "Negative mood"
      else "Neutral mood"
    let change := current - previous
    if |change| > 1/5 then
      if change > 0 then base ++ " (improving)" else base ++ " (declining)"
    else base

/-- Cache-miss tail of `_get_mood_context`: compute the context and store
it under the mood-context TTL of 300 seconds. -/
def refreshMoodContext (st : ServiceState) (now : ℚ) (uid : String)
    (mc : LocalCache String) : String × ServiceState :=
  let ctx := computeMoodContext (recentMoodScores st uid 2)
  (ctx,
   { st with moodCache := (cmSet none (fun _ => true) mc now "mood_context" uid ctx 300).2 })

/-- Embeds `_get_mood_context` (lines 895-940): return the cached string
when present and non-empty (Python truthiness), otherwise recompute from
the two newest persisted scores and cache the result. -/
def getMoodContext (st : ServiceState) (now : ℚ) (uid : String) :
    String × ServiceState :=
  match cmGet none st.moodCache now "mood_context" uid with
  | (some c, mc2) =>
    if c != "" then (c, { st with moodCache := mc2 })
    else refreshMoodContext st now uid mc2
  | (none, mc2) => refreshMoodContext st now uid mc2

/-- The memory rows of one user, as the retrieval loop sees them. -/
def userMemories (st : ServiceState) (uid : String) : List MemRow :=
  (st.memories.filter (fun m => m.user == uid)).map (fun m => ⟨m.key, m.value, m.importance⟩)

/-- The `search_result` cache key of `SearchResultCache._make_key`, with
the process-local `hash(query)` replaced by the query itself. -/
def searchKeyOf (uid query : String) (k : ℕ) : String :=
  "user_" ++ uid ++ "_q_" ++ query ++ "_k_" ++ toString k

/-- Cache-miss tail of `_get_memories_for_context` (lines 984-1030):
compute the top five, cache them under the 600-second search TTL (the
no-facts sentinel path returns before the cache write), and format. -/
def computeAndCacheSearch (st : ServiceState) (now : ℚ) (uid query : String)
    (sc : LocalCache (List (MemRow × ℚ))) : String × ServiceState :=
  let mems := userMemories st uid
  if mems.isEmpty then
    ("No memories about user yet.", { st with searchCache := sc })
  else
    let top := selectedMemories query mems 5
    let formatted :=
      if top.isEmpty then "No directly relevant memories." else formatMemories top
    (formatted,
     { st with searchCache :=
        (cmSet none (fun _ => true) sc now "search_result" (searchKeyOf uid query 5) top 600).2 })

/-- Embeds the cached read path of `_get_memories_for_context`
(lines 975-982): a cached non-empty list (Python truthiness) is formatted
and returned, anything else falls through to the computation. -/
def getMemoriesForContextCached (st : ServiceState) (now : ℚ) (uid query : String) :
    String × ServiceState :=
  match cmGet none st.searchCache now "search_result" (searchKeyOf uid query 5) with
  | (some l, sc2) =>
    if l.isEmpty then computeAndCacheSearch st now uid query sc2
    else (formatMemories l, { st with searchCache := sc2 })
  | (none, sc2) => computeAndCacheSearch st now uid query sc2

/-! ## Reply generation (`generate_reply`, lines 269-377)

The claims about `generate_reply` concern the `try` block around the LLM
call.  The stages before it (activity tracking, safety checks,
preference lookup, mood logging, immediate extraction) never write
`self.history`, and the persistence calls and tool-call rewriting inside
the `try` are external collaborations, abstracted as the `toolRewrite`
oracle; `self.history` is written only at lines 365-367, after the LLM
call returned. -/

/-- The fixed message returned by the `except` arm at line 377. -/
def fallbackReply : String :=
  "I\x27m having trouble responding right now. Could you try again?"

structure ReplyResult where
  reply : String
  history : List Msg
deriving DecidableEq

/-- The `try`/`except` core of `generate_reply` given the outcome of
`self.llm_service.chat`: on an exception the fixed fallback is returned
and the history window is untouched; on success the (possibly
tool-rewritten) reply is appended together with the user turn and the
window is re-trimmed to the token budget. -/
def generateReplyCore (history : List Msg) (userInput : String)
    (chatResult : RResult String) (toolRewrite : String → String)
    (maxTokens : ℕ) : ReplyResult :=
  match chatResult with
  | .exn => ⟨fallbackReply, history⟩
  | .ok content =>
    let botReply := toolRewrite content
    ⟨botReply,
     pruneHistoryByTokens
       (history ++ [⟨"user", userInput⟩, ⟨"assistant", botReply⟩]) maxTokens⟩

/-! ## Theorems -/

/-- C6: after a successful `set` at time `t` with time-to-live `ttl`, a
`get` on the in-process store strictly before `t + ttl` returns the
stored value unchanged (and leaves the store as is), and a `get` at or
after `t + ttl` misses: an entry is visible to `get` iff
`now < expires_at`. -/
theorem c6_ttl_round_trip {V : Type} (serOk : V → Bool) (st : LocalCache V)
    (t now ttl : ℚ) (ns key : String) (v : V) (hser : serOk v = true) :
    (cmSet none serOk st t ns key v ttl).1 = true ∧
    (now < t + ttl →
      cmGet none (cmSet none serOk st t ns key v ttl).2 now ns key =
        (some v, (cmSet none serOk st t ns key v ttl).2)) ∧
    (t + ttl ≤ now →
      (cmGet none (cmSet none serOk st t ns key v ttl).2 now ns key).1 = none) := by
  refine ⟨by simp [cmSet, hser], ?_, ?_⟩
  · intro h
    simp [cmSet, hser, cmGet, localSet, localGet, h]
  · intro h
    simp [cmSet, hser, cmGet, localSet, localGet, not_lt.mpr h]

/-- Witness for C6 at the scenario of the specification: value stored at
time 0 with a 5-unit TTL is returned at time 3 and gone at time 7. -/
theorem c6_ttl_round_trip_witness :
    (cmGet none (cmSet none (fun _ => true) ([] : LocalCache String) 0 "embedding" "k1" "v" 5).2
        3 "embedding" "k1").1 = some "v" ∧
    (cmGet none (cmSet none (fun _ => true) ([] : LocalCache String) 0 "embedding" "k1" "v" 5).2
        7 "embedding" "k1").1 = none := by
  constructor
  · have h := (c6_ttl_round_trip (fun _ => true) ([] : LocalCache String)
      0 3 5 "embedding" "k1" "v" rfl).2.1 (by norm_num)
    rw [h]
  · exact (c6_ttl_round_trip (fun _ => true) ([] : LocalCache String)
      0 7 5 "embedding" "k1" "v" rfl).2.2 (by norm_num)

/-- C7: with a distributed backend on which every call raises, `get` and
`set` return exactly what they return with no backend configured at all
(the local in-process store serves both), and `set` still succeeds
whenever the value serializes; no backend error reaches the caller. -/
theorem c7_backend_failure_equiv {V : Type} (serOk : V → Bool)
    (st : LocalCache V) (now : ℚ) (ns key : String) (v : V) (ttl : ℚ) :
    cmGet (some (raisingClient V)) st now ns key = cmGet none st now ns key ∧
    cmSet (some (raisingClient V)) serOk st now ns key v ttl =
      cmSet none serOk st now ns key v ttl ∧
    (serOk v = true →
      (cmSet (some (raisingClient V)) serOk st now ns key v ttl).1 = true) := by
  refine ⟨rfl, rfl, fun h => ?_⟩
  simp [cmSet, raisingClient, h]

/-- Witness for C7: a concrete `set` against the raising backend
succeeds. -/
theorem c7_backend_failure_equiv_witness :
    (cmSet (some (raisingClient String)) (fun _ => true) [] 0 "embedding" "k1" "v" 5).1 = true :=
  (c7_backend_failure_equiv (fun _ => true) [] 0 "embedding" "k1" "v" 5).2.2 rfl

/-- C8: on `[-1, 1]` the mood label ladder is total and its precedence-
resolved cases are mutually exclusive: each of the five labels is
returned exactly on its region, and exactly one label applies to every
score. -/
theorem c8_mood_label_partition (s : ℚ) (h1 : -1 ≤ s) (h2 : s ≤ 1) :
    (moodLabel s = "Great" ↔ 1/2 ≤ s) ∧
    (moodLabel s = "Good" ↔ (1/20 ≤ s ∧ s < 1/2)) ∧
    (moodLabel s = "Heavy" ↔ s ≤ -(1/2)) ∧
    (moodLabel s = "Low" ↔ (-(1/2) < s ∧ s ≤ -(1/20))) ∧
    (moodLabel s = "Neutral" ↔ (-(1/20) < s ∧ s < 1/20)) ∧
    (∃! l, l ∈ (["Great", "Good", "Heavy", "Low", "Neutral"] : List String) ∧
      moodLabel s = l) := by
  unfold moodLabel
  split_ifs with hA hB hC hD <;>
    (try simp only [not_le, not_lt] at hA hB hC hD) <;>
    refine ⟨?_, ?_, ?_, ?_, ?_, ⟨_, ⟨by decide, rfl⟩, fun y hy => hy.2.symm⟩⟩ <;>
    first
      | exact iff_of_true rfl (by linarith)
      | exact iff_of_true rfl ⟨by linarith, by linarith⟩
      | exact iff_of_false (by decide) (by push_neg; intros; linarith)

/-- Witness for C8: the score 0.3 is labelled Good. -/
theorem c8_mood_label_partition_witness : moodLabel (3/10 : ℚ) = "Good" :=
  ((c8_mood_label_partition (3/10) (by norm_num) (by norm_num)).2.1).mpr
    ⟨by norm_num, by norm_num⟩

/-- C10: when the LLM chat call raises, the reply core returns the fixed
fallback message and leaves the in-process history window exactly as it
was; no user or assistant turn is appended on the error path. -/
theorem c10_llm_failure_fallback (history : List Msg) (userInput : String)
    (toolRewrite : String → String) (maxTokens : ℕ) :
    (generateReplyCore history userInput .exn toolRewrite maxTokens).reply =
        "I\x27m having trouble responding right now. Could you try again?" ∧
    (generateReplyCore history userInput .exn toolRewrite maxTokens).history =
        history :=
  ⟨rfl, rfl⟩

/-- Budget bound of the accumulation loop: the cost of the kept turns
never exceeds the remaining budget. -/
theorem pruneAux_totalTokens_le (maxTok : ℕ) :
    ∀ (l : List Msg) (acc : ℕ), totalTokens (pruneAux maxTok l acc) ≤ maxTok - acc := by
  intro l
  induction l with
  | nil => intro acc; simp [pruneAux, totalTokens]
  | cons m rest ih =>
    intro acc
    by_cases h : acc + msgTokens m ≤ maxTok
    · have hr := ih (acc + msgTokens m)
      simp only [pruneAux, if_pos h, totalTokens, List.map_cons, List.sum_cons]
      simp only [totalTokens] at hr
      omega
    · simp [pruneAux, if_neg h, totalTokens]

/-- C3, counterexample to the claimed exception clause: a single turn of
12 characters costs 5 tokens; trimmed to a budget of 4 the window comes
back empty, not as the oversized turn alone. -/
theorem c3_oversized_turn_counterexample :
    4 < msgTokens ⟨"user", "aaaaaaaaaaaa"⟩ ∧
    pruneHistoryByTokens [⟨"user", "aaaaaaaaaaaa"⟩] 4 = [] ∧
    pruneHistoryByTokens [⟨"user", "aaaaaaaaaaaa"⟩] 4 ≠ [⟨"user", "aaaaaaaaaaaa"⟩] := by
  refine ⟨by decide, by decide, by decide⟩

/-- C3 as amended: the trimmed window never exceeds the token budget,
with no exception; when even the most recent turn alone exceeds the
budget, the empty window is returned. -/
theorem c3_trim_within_budget (history : List Msg) (budget : ℕ) :
    totalTokens (pruneHistoryByTokens history budget) ≤ budget ∧
    (∀ m, history.getLast? = some m → budget < msgTokens m →
      pruneHistoryByTokens history budget = []) := by
  constructor
  · unfold pruneHistoryByTokens
    have h := pruneAux_totalTokens_le budget history.reverse 0
    have heq : totalTokens (pruneAux budget history.reverse 0).reverse =
        totalTokens (pruneAux budget history.reverse 0) := by
      simp [totalTokens, List.map_reverse, List.sum_reverse]
    omega
  · intro m hm hgt
    unfold pruneHistoryByTokens
    have hh : history.reverse.head? = some m := by
      rw [List.head?_reverse]; exact hm
    obtain ⟨t, ht⟩ : ∃ t, history.reverse = m :: t := by
      cases hrev : history.reverse with
      | nil => rw [hrev] at hh; simp at hh
      | cons a t =>
        rw [hrev] at hh
        simp only [List.head?_cons, Option.some.injEq] at hh
        exact ⟨t, by rw [hh]⟩
    rw [ht]
    simp only [pruneAux]
    rw [if_neg (by omega)]
    rfl

/-- Witness for C3 as amended, at the counterexample input: the budget
bound holds and the oversized most recent turn yields the empty
window. -/
theorem c3_trim_within_budget_witness :
    totalTokens (pruneHistoryByTokens [⟨"user", "aaaaaaaaaaaa"⟩] 4) ≤ 4 ∧
    pruneHistoryByTokens [⟨"user", "aaaaaaaaaaaa"⟩] 4 = [] :=
  ⟨(c3_trim_within_budget [⟨"user", "aaaaaaaaaaaa"⟩] 4).1,
   (c3_trim_within_budget [⟨"user", "aaaaaaaaaaaa"⟩] 4).2
     ⟨"user", "aaaaaaaaaaaa"⟩ (by decide) (by decide)⟩

/-- The executable substring test agrees with list infix containment. -/
theorem strContains_iff (hay needle : List Char) :
    strContains hay needle = true ↔ needle <:+: hay := by
  unfold strContains
  rw [List.any_eq_true]
  constructor
  · rintro ⟨t, ht, hp⟩
    rw [List.mem_tails] at ht
    rw [List.isPrefixOf_iff_prefix] at hp
    exact List.infix_iff_prefix_suffix.mpr ⟨t, hp, ht⟩
  · intro h
    obtain ⟨t, hp, hs⟩ := List.infix_iff_prefix_suffix.mp h
    exact ⟨t, (List.mem_tails _ _).mpr hs, List.isPrefixOf_iff_prefix.mpr hp⟩

/-- C4, counterexample to the claimed bidirectional test: against the
existing fact (Hobbies, enjoys hiking) the candidate
(hobbies, hiking on weekends) is not flagged as a duplicate — the value
is only tested for containment in one direction — so it is persisted,
not dropped. -/
theorem c4_scenario_counterexample :
    isDuplicateCandidate "hobbies" "hiking on weekends"
      [⟨"Hobbies", "enjoys hiking", 4/5⟩] = false ∧
    enhancedExtractionPersists "hobbies" "hiking on weekends"
      [⟨"Hobbies", "enjoys hiking", 4/5⟩] = true := by
  refine ⟨by decide, by decide⟩

/-- C4 as amended: a candidate is dropped as a duplicate iff some
existing fact of the user contains the candidate key as a
case-insensitive substring of its key and the candidate value as a
case-insensitive substring of its value — containment is tested in that
one direction only, never the reverse. -/
theorem c4_dedup_one_directional (key value : String) (mems : List MemRow) :
    isDuplicateCandidate key value mems = true ↔
      ∃ mem ∈ mems, lowerChars key <:+: lowerChars mem.key ∧
        lowerChars value <:+: lowerChars mem.value := by
  unfold isDuplicateCandidate
  rw [List.any_eq_true]
  constructor
  · rintro ⟨mem, hmem, hb⟩
    rw [Bool.and_eq_true, strContains_iff, strContains_iff] at hb
    exact ⟨mem, hmem, hb.1, hb.2⟩
  · rintro ⟨mem, hmem, h1, h2⟩
    refine ⟨mem, hmem, ?_⟩
    rw [Bool.and_eq_true, strContains_iff, strContains_iff]
    exact ⟨h1, h2⟩

/-- C1: the claimed invariant — at most one live (armed, neither fired
nor cancelled) idle timer per user in every reachable scheduler state —
is false for the step relation of the source: two message-activity
events one second apart leave two live timers for the user, because
`_schedule_memory_extraction` starts a new timer thread on every message
and never cancels the previous one. -/
theorem c1_single_live_timer_invariant_fails :
    ¬ (∀ (es : List SchedEvent) (st : SchedState) (u : String),
        schedRun schedInit es = some st → liveTimerCount st u ≤ 1) := by
  intro h
  have h2 := h [.activity "u", .advance 1, .activity "u"]
      ⟨1, [("u", 1)], [⟨"u", 0, .sleeping⟩, ⟨"u", 1, .sleeping⟩]⟩ "u" (by decide)
  exact absurd h2 (by decide)

/-- C2: the claimed mutual exclusion — no two extraction/journaling
bodies for the same user ever overlap — is false for the step relation
of the source: two timers armed by two messages at the same instant can
both pass the inactivity re-check after the idle window and both sit in
the extraction body, because `with threading.Lock():` acquires a lock
created on the spot that no other thread can ever hold. -/
theorem c2_extraction_mutual_exclusion_fails :
    ¬ (∀ (es : List SchedEvent) (st : SchedState) (u : String),
        schedRun schedInit es = some st → inBodyCount st u ≤ 1) := by
  intro h
  have h2 := h [.activity "u", .activity "u", .advance 600, .wake 0, .wake 1]
      ⟨600, [("u", 0)], [⟨"u", 0, .inBody⟩, ⟨"u", 0, .inBody⟩]⟩ "u" (by decide)
  exact absurd h2 (by decide)

/-- A `get` on the in-process store immediately after a `set` of the same
key hits while the entry is unexpired. -/
theorem localGet_set_hit {V : Type} (st : LocalCache V) (t now ttl : ℚ)
    (ck : String) (v : V) (h : now < t + ttl) :
    localGet (localSet st t ck v ttl) now ck = (some v, localSet st t ck v ttl) := by
  simp [localGet, localSet, h]

/-- A cached, non-empty mood-context string is returned as is. -/
theorem getMoodContext_cache_hit (st : ServiceState) (now : ℚ) (uid c : String)
    (hc : cmGet none st.moodCache now "mood_context" uid = (some c, st.moodCache))
    (hne : c ≠ "") : getMoodContext st now uid = (c, st) := by
  unfold getMoodContext
  rw [hc]
  simp [hne]

/-- C5, counterexample: the mood-context string cached by a read at time
0 over an empty log is still returned by a read at time 10, after a new
mood sample was recorded in between — `_auto_analyze_and_log_mood` never
deletes the cached entry, although recomputing from the logs would now
give a different string; likewise `_save_memory_tool` leaves the search
cache untouched. -/
theorem c5_stale_read_counterexample :
    getMoodContext ⟨[], [], [], []⟩ 0 "u"
      = ("Unknown mood (no data)",
         ⟨[], [], localSet [] 0 (cacheKeyOf "mood_context" "u") "Unknown mood (no data)" 300, []⟩) ∧
    (autoAnalyzeAndLogMood
        ⟨[], [], localSet [] 0 (cacheKeyOf "mood_context" "u") "Unknown mood (no data)" 300, []⟩
        "u" (3/5) []).1
      = ⟨[⟨"u", 3/5, moodLabel (3/5), "General"⟩], [],
         localSet [] 0 (cacheKeyOf "mood_context" "u") "Unknown mood (no data)" 300, []⟩ ∧
    (getMoodContext
        ⟨[⟨"u", 3/5, moodLabel (3/5), "General"⟩], [],
         localSet [] 0 (cacheKeyOf "mood_context" "u") "Unknown mood (no data)" 300, []⟩
        10 "u").1
      = "Unknown mood (no data)" ∧
    computeMoodContext (recentMoodScores
        ⟨[⟨"u", 3/5, moodLabel (3/5), "General"⟩], [], [], []⟩ "u" 2)
      = "Positive mood" ∧
    ("Unknown mood (no data)" : String) ≠ "Positive mood" ∧
    (saveMemoryTool ⟨[], [], [], []⟩ "u" "Hobbies" "enjoys hiking").searchCache
      = ([] : LocalCache (List (MemRow × ℚ))) := by
  refine ⟨rfl, rfl, ?_, ?_, by decide, rfl⟩
  · have hget : cmGet none
        (localSet ([] : LocalCache String) 0 (cacheKeyOf "mood_context" "u")
          "Unknown mood (no data)" 300) 10 "mood_context" "u"
        = (some "Unknown mood (no data)",
           localSet ([] : LocalCache String) 0 (cacheKeyOf "mood_context" "u")
             "Unknown mood (no data)" 300) :=
      localGet_set_hit [] 0 10 300 (cacheKeyOf "mood_context" "u")
        "Unknown mood (no data)" (by norm_num)
    rw [getMoodContext_cache_hit _ 10 "u" "Unknown mood (no data)" hget (by decide)]
  · show computeMoodContext [(3 : ℚ)/5] = "Positive mood"
    simp only [computeMoodContext]
    rw [if_pos (by norm_num)]

/-- C5 as amended: recording a new mood sample does not invalidate the
cached mood-context string, and persisting a new fact does not
invalidate cached retrieval results — both write paths leave the cache
state entirely unchanged, so a read issued after the write within the
TTL returns the value cached before the write. -/
theorem c5_writes_do_not_invalidate (st : ServiceState) (uid key value : String)
    (score : ℚ) (topics : List String) :
    (autoAnalyzeAndLogMood st uid score topics).1.moodCache = st.moodCache ∧
    (autoAnalyzeAndLogMood st uid score topics).1.searchCache = st.searchCache ∧
    (saveMemoryTool st uid key value).moodCache = st.moodCache ∧
    (saveMemoryTool st uid key value).searchCache = st.searchCache := by
  refine ⟨rfl, rfl, ?_, ?_⟩ <;> (unfold saveMemoryTool; split <;> rfl)

/-- Transitivity of the descending comparison used by the sort. -/
theorem memLE_trans : ∀ (a b c : MemRow × ℚ),
    memLE a b = true → memLE b c = true → memLE a c = true := by
  intro a b c hab hbc
  simp only [memLE, decide_eq_true_eq] at hab hbc ⊢
  exact le_trans hbc hab

/-- Totality of the descending comparison used by the sort. -/
theorem memLE_total : ∀ (a b : MemRow × ℚ), (memLE a b || memLE b a) = true := by
  intro a b
  simp only [memLE, Bool.or_eq_true, decide_eq_true_eq]
  exact le_total b.2 a.2

/-- The relevance score in closed form: overlap ratio times the
importance boost (the guarded zero branch coincides with the ratio,
since an empty intersection gives ratio zero). -/
theorem relevanceOf_eq (query : String) (m : MemRow) :
    relevanceOf query m =
      (if m.importance > 7/10 then (6/5 : ℚ) else 1) *
        ((interCount (wordSet query) (wordSet (m.key ++ " " ++ m.value)) : ℚ) /
          (max (wordSet query).length (wordSet (m.key ++ " " ++ m.value)).length : ℕ)) := by
  by_cases h : interCount (wordSet query) (wordSet (m.key ++ " " ++ m.value)) = 0
  · simp [relevanceOf, h]
  · simp only [relevanceOf, h, ne_eq, not_false_iff, if_true]
    split_ifs <;> ring

/-- C9: retrieval scores every selected fact as the lowercase word-set
overlap ratio times a 1.2 boost exactly when its importance exceeds 0.7,
keeps only scores above 0.1, returns the top-k of the stable descending
sort (ties keep storage order: any already-descending selection of the
filtered list survives as a subsequence of the sorted list), and a user
without stored facts receives the fixed non-empty sentinel string. -/
theorem c9_keyword_retrieval (query : String) (mems : List MemRow) (k : ℕ) :
    (mems = [] → getMemoriesForContext query mems = "No memories about user yet.") ∧
    ("No memories about user yet." : String) ≠ "" ∧
    (∀ p, p ∈ selectedMemories query mems k →
      p.2 = (if p.1.importance > 7/10 then (6/5 : ℚ) else 1) *
        ((interCount (wordSet query) (wordSet (p.1.key ++ " " ++ p.1.value)) : ℚ) /
          (max (wordSet query).length (wordSet (p.1.key ++ " " ++ p.1.value)).length : ℕ)) ∧
      (1/10 : ℚ) < p.2) ∧
    List.Pairwise (fun a b : MemRow × ℚ => b.2 ≤ a.2) (selectedMemories query mems k) ∧
    (∀ c : List (MemRow × ℚ), List.Pairwise (fun a b => b.2 ≤ a.2) c →
      c.Sublist (relevantMemories query mems) →
      c.Sublist ((relevantMemories query mems).mergeSort memLE)) ∧
    selectedMemories query mems k = ((relevantMemories query mems).mergeSort memLE).take k := by
  refine ⟨?_, by decide, ?_, ?_, ?_, rfl⟩
  · intro h; subst h; rfl
  · intro p hp
    have hp2 : p ∈ (relevantMemories query mems).mergeSort memLE :=
      (List.take_sublist _ _).subset hp
    have hp3 : p ∈ relevantMemories query mems :=
      ((List.mergeSort_perm _ memLE).mem_iff).mp hp2
    unfold relevantMemories at hp3
    obtain ⟨hmem, hcond⟩ := List.mem_filter.mp hp3
    obtain ⟨m, hm, rfl⟩ := List.mem_map.mp hmem
    refine ⟨relevanceOf_eq query m, ?_⟩
    simpa using hcond
  · have hs := List.sorted_mergeSort memLE_trans memLE_total (relevantMemories query mems)
    have hp : List.Pairwise (fun a b => memLE a b = true) (selectedMemories query mems k) :=
      List.Pairwise.sublist (List.take_sublist _ _) hs
    exact hp.imp (fun h => by simpa [memLE] using h)
  · intro c hc hsub
    refine List.sublist_mergeSort memLE_trans memLE_total ?_ hsub
    exact hc.imp (fun h => by simp only [memLE, decide_eq_true_eq]; exact h)

/-- Witness for C9: a user with no stored facts receives the sentinel. -/
theorem c9_keyword_retrieval_witness :
    getMemoriesForContext "hello" [] = "No memories about user yet." :=
  (c9_keyword_retrieval "hello" [] 5).1 rfl

/-- Witness for the amended C4 at a concrete input: a candidate whose key
and value are both contained in an existing fact is flagged. -/
theorem c4_dedup_one_directional_witness :
    isDuplicateCandidate "hobbies" "hiking" [⟨"Hobbies", "enjoys hiking", 4/5⟩] = true :=
  (c4_dedup_one_directional "hobbies" "hiking" [⟨"Hobbies", "enjoys hiking", 4/5⟩]).mpr
    ⟨⟨"Hobbies", "enjoys hiking", 4/5⟩, List.Mem.head _, by decide, by decide⟩

/-- Witness for the amended C5 at a concrete input. -/
theorem c5_writes_do_not_invalidate_witness :
    (saveMemoryTool ⟨[], [], [], []⟩ "u" "k" "v").moodCache = ([] : LocalCache String) :=
  (c5_writes_do_not_invalidate ⟨[], [], [], []⟩ "u" "k" "v" 0 []).2.2.1
